import Mathlib

/-!
Verification of the event-grouping transformation from the nipype tutorial
notebook `basic_model_specification.ipynb`.

The notebook's grouping cell is:

    conditions = []
    onsets = []
    durations = []
    for group in trialinfo.groupby('trial_type'):
        conditions.append(group[0])
        onsets.append(group[1].onset.tolist())
        durations.append(group[1].duration.tolist())
    subject_info = Bunch(conditions=conditions, onsets=onsets, durations=durations)

`trialinfo` is a pandas DataFrame with columns `onset`, `duration`,
`trial_type` and (in the tutorial data) `weight`.  The embedding below models
pandas `DataFrame.groupby(col)` semantics with default arguments:
  * iteration visits groups in ascending sorted order of the key,
  * rows inside each group keep their original order,
  * rows whose key is missing (NaN) are dropped.
A missing `trial_type` cell is modelled as `none`.
-/

/-- One row of the event table: columns `onset`, `duration`, `trial_type`
(`none` models a missing/NaN cell) and the optional `weight` column. -/
structure TrialRecord where
  onset : Int
  duration : Int
  trial_type : Option String
  weight : Option Int
deriving DecidableEq, Repr

/-- The `Bunch` produced by the notebook cell: three aligned lists. -/
structure ConditionModel where
  conditions : List String
  onsets : List (List Int)
  durations : List (List Int)
deriving DecidableEq, Repr

/-- Code-point lexicographic comparison of character lists; `charListLe a b`
holds when `a` is lexicographically at most `b`.  This is the order in which
Python compares strings, hence the order pandas uses to sort group keys. -/
def charListLe : List Char → List Char → Bool
  | [], _ => true
  | _ :: _, [] => false
  | a :: as, b :: bs =>
    if a.toNat < b.toNat then true
    else if b.toNat < a.toNat then false
    else charListLe as bs

/-- Lexicographic order on strings, as Python compares `trial_type` labels. -/
def strLe (a b : String) : Prop := charListLe a.data b.data = true

instance : DecidableRel strLe := fun a b => instDecidableEqBool (charListLe a.data b.data) true

/-- The non-missing `trial_type` values of the rows, in row order. -/
def labels (rs : List TrialRecord) : List String :=
  rs.filterMap (fun r => r.trial_type)

/-- Distinct elements of a list in order of first appearance, skipping the
ones already in `seen`. -/
def firstSeenAux (seen : List String) : List String → List String
  | [] => []
  | x :: xs => if x ∈ seen then firstSeenAux seen xs else x :: firstSeenAux (x :: seen) xs

/-- Distinct elements of a list in order of first appearance. -/
def firstSeen (xs : List String) : List String :=
  firstSeenAux [] xs

/-- The group keys produced by `trialinfo.groupby('trial_type')`: the distinct
non-missing labels, visited in ascending sorted order. -/
def condKeys (rs : List TrialRecord) : List String :=
  List.insertionSort strLe (firstSeen (labels rs))

/-- The rows of one group: the rows whose `trial_type` equals `c`, in their
original row order (pandas keeps intra-group row order). -/
def rowsFor (rs : List TrialRecord) (c : String) : List TrialRecord :=
  rs.filter (fun r => r.trial_type == some c)

/-- The grouping cell of the notebook: one `conditions` entry per group key,
with `group[1].onset.tolist()` and `group[1].duration.tolist()` as the
aligned `onsets` and `durations` entries. -/
def group (rs : List TrialRecord) : ConditionModel :=
  { conditions := condKeys rs
    onsets := (condKeys rs).map (fun c => (rowsFor rs c).map (fun r => r.onset))
    durations := (condKeys rs).map (fun c => (rowsFor rs c).map (fun r => r.duration)) }

/-- The spec's words: the distinct condition labels,
"in order of first appearance in the input". -/
def specFirstSeenConditions (rs : List TrialRecord) : List String :=
  firstSeen (labels rs)

/-- The data of a row that the grouping cell actually reads: everything but
the `weight` column. -/
def stripWeight (r : TrialRecord) : Int × Int × Option String :=
  (r.onset, r.duration, r.trial_type)

/-- Rebuild a flat record sequence from aligned condition/onset/duration
lists: for each condition in order, one record per aligned (onset, duration)
pair, keeping the per-condition order; the optional weight is absent. -/
def rebuild : List String → List (List Int) → List (List Int) → List TrialRecord
  | c :: cs, os :: oss, ds :: dss =>
      (os.zip ds).map (fun q => ⟨q.1, q.2, some c, none⟩) ++ rebuild cs oss dss
  | _, _, _ => []

/-- Flatten a ConditionModel back into a record sequence. -/
def flattenModel (m : ConditionModel) : List TrialRecord :=
  rebuild m.conditions m.onsets m.durations

/-- The record sequence obtained by concatenating, for each label of `cs` in
order, the input's rows for that label (weight dropped). -/
def blocks (rs : List TrialRecord) : List String → List TrialRecord
  | [] => []
  | c :: cs =>
      (rowsFor rs c).map (fun r => ⟨r.onset, r.duration, some c, none⟩) ++ blocks rs cs

/-- The five trial rows of the tutorial event file example. -/
def tutorialRecords : List TrialRecord :=
  [⟨10, 15, some "Finger", some 1⟩, ⟨40, 15, some "Foot", some 1⟩,
   ⟨70, 15, some "Lips", some 1⟩, ⟨100, 15, some "Finger", some 1⟩,
   ⟨130, 15, some "Foot", some 1⟩]

/-- Two rows whose first-appearance order ("Foot" before "Finger") disagrees
with the sorted order pandas emits. -/
def swappedRecords : List TrialRecord :=
  [⟨40, 15, some "Foot", some 1⟩, ⟨10, 15, some "Finger", some 1⟩]

/-- An input containing a row with a missing `trial_type`. -/
def malformedRecords : List TrialRecord :=
  [⟨10, 15, none, some 1⟩, ⟨40, 15, some "Foot", some 1⟩]

/-! ### Basic facts about the lexicographic order -/

theorem charListLe_cons_iff {a b : Char} {as bs : List Char} :
    charListLe (a :: as) (b :: bs) = true ↔
      a.toNat < b.toNat ∨ (a.toNat = b.toNat ∧ charListLe as bs = true) := by
  rw [charListLe]
  by_cases hab : a.toNat < b.toNat
  · simp [hab]
  · by_cases hba : b.toNat < a.toNat
    · simp [hab, hba]
      omega
    · have heq : a.toNat = b.toNat := by omega
      simp [hab, hba, heq]

theorem charListLe_total : ∀ as bs : List Char,
    charListLe as bs = true ∨ charListLe bs as = true
  | [], _ => Or.inl rfl
  | _ :: _, [] => Or.inr rfl
  | a :: as, b :: bs => by
    rcases Nat.lt_trichotomy a.toNat b.toNat with h | h | h
    · exact Or.inl (charListLe_cons_iff.mpr (Or.inl h))
    · rcases charListLe_total as bs with ih | ih
      · exact Or.inl (charListLe_cons_iff.mpr (Or.inr ⟨h, ih⟩))
      · exact Or.inr (charListLe_cons_iff.mpr (Or.inr ⟨h.symm, ih⟩))
    · exact Or.inr (charListLe_cons_iff.mpr (Or.inl h))

theorem charListLe_trans : ∀ as bs cs : List Char,
    charListLe as bs = true → charListLe bs cs = true → charListLe as cs = true
  | [], _, _, _, _ => rfl
  | _ :: _, [], _, h1, _ => by simp [charListLe] at h1
  | _ :: _, _ :: _, [], _, h2 => by simp [charListLe] at h2
  | a :: as, b :: bs, c :: cs, h1, h2 => by
    rcases charListLe_cons_iff.mp h1 with hab | ⟨hab, hrec1⟩ <;>
      rcases charListLe_cons_iff.mp h2 with hbc | ⟨hbc, hrec2⟩
    · exact charListLe_cons_iff.mpr (Or.inl (hab.trans hbc))
    · exact charListLe_cons_iff.mpr (Or.inl (hbc ▸ hab))
    · exact charListLe_cons_iff.mpr (Or.inl (hab ▸ hbc))
    · exact charListLe_cons_iff.mpr
        (Or.inr ⟨hab.trans hbc, charListLe_trans as bs cs hrec1 hrec2⟩)

theorem charListLe_antisymm : ∀ as bs : List Char,
    charListLe as bs = true → charListLe bs as = true → as = bs
  | [], [], _, _ => rfl
  | _ :: _, [], h1, _ => by simp [charListLe] at h1
  | [], _ :: _, _, h2 => by simp [charListLe] at h2
  | a :: as, b :: bs, h1, h2 => by
    rcases charListLe_cons_iff.mp h1 with hab | ⟨hab, hrec1⟩ <;>
      rcases charListLe_cons_iff.mp h2 with hba | ⟨hba, hrec2⟩
    · omega
    · omega
    · omega
    · have : a = b :=
        Char.eq_of_val_eq (UInt32.eq_of_toBitVec_eq (BitVec.eq_of_toNat_eq hab))
      rw [this, charListLe_antisymm as bs hrec1 hrec2]

theorem strLe_total (a b : String) : strLe a b ∨ strLe b a :=
  charListLe_total a.data b.data

theorem strLe_trans {a b c : String} (h1 : strLe a b) (h2 : strLe b c) : strLe a c :=
  charListLe_trans a.data b.data c.data h1 h2

theorem strLe_antisymm {a b : String} (h1 : strLe a b) (h2 : strLe b a) : a = b := by
  have h := charListLe_antisymm a.data b.data h1 h2
  cases a
  cases b
  exact congrArg String.mk h

instance : IsTotal String strLe := ⟨strLe_total⟩

instance : IsTrans String strLe := ⟨fun _ _ _ => strLe_trans⟩

instance : IsAntisymm String strLe := ⟨fun _ _ => strLe_antisymm⟩

/-! ### Facts about `firstSeen` -/

theorem mem_firstSeenAux {a : String} : ∀ (seen xs : List String),
    a ∈ firstSeenAux seen xs ↔ a ∈ xs ∧ a ∉ seen
  | seen, [] => by simp [firstSeenAux]
  | seen, x :: xs => by
    by_cases hx : x ∈ seen
    · rw [firstSeenAux, if_pos hx, mem_firstSeenAux seen xs]
      constructor
      · rintro ⟨h1, h2⟩
        exact ⟨List.mem_cons_of_mem x h1, h2⟩
      · rintro ⟨h1, h2⟩
        rcases List.mem_cons.mp h1 with rfl | h1
        · exact absurd hx h2
        · exact ⟨h1, h2⟩
    · rw [firstSeenAux, if_neg hx]
      simp only [List.mem_cons, mem_firstSeenAux (x :: seen) xs]
      constructor
      · rintro (rfl | ⟨h1, h2⟩)
        · exact ⟨Or.inl rfl, hx⟩
        · exact ⟨Or.inr h1, fun hs => h2 (Or.inr hs)⟩
      · rintro ⟨rfl | h1, h2⟩
        · exact Or.inl rfl
        · by_cases hax : a = x
          · exact Or.inl hax
          · exact Or.inr ⟨h1, fun hs => hs.elim hax h2⟩

theorem nodup_firstSeenAux : ∀ (seen xs : List String), (firstSeenAux seen xs).Nodup
  | seen, [] => by simp [firstSeenAux]
  | seen, x :: xs => by
    by_cases hx : x ∈ seen
    · rw [firstSeenAux, if_pos hx]
      exact nodup_firstSeenAux seen xs
    · rw [firstSeenAux, if_neg hx, List.nodup_cons]
      refine ⟨fun hmem => ?_, nodup_firstSeenAux (x :: seen) xs⟩
      exact ((mem_firstSeenAux _ _).mp hmem).2 (List.mem_cons_self x seen)

theorem mem_firstSeen {a : String} {xs : List String} : a ∈ firstSeen xs ↔ a ∈ xs := by
  simp [firstSeen, mem_firstSeenAux]

theorem nodup_firstSeen (xs : List String) : (firstSeen xs).Nodup :=
  nodup_firstSeenAux [] xs

/-! ### Facts about the group keys -/

theorem condKeys_perm (rs : List TrialRecord) :
    (condKeys rs).Perm (firstSeen (labels rs)) :=
  List.perm_insertionSort strLe (firstSeen (labels rs))

theorem mem_condKeys {c : String} {rs : List TrialRecord} :
    c ∈ condKeys rs ↔ ∃ r ∈ rs, r.trial_type = some c := by
  rw [(condKeys_perm rs).mem_iff, mem_firstSeen, labels, List.mem_filterMap]

theorem condKeys_sorted (rs : List TrialRecord) : (condKeys rs).Sorted strLe :=
  List.sorted_insertionSort strLe (firstSeen (labels rs))

theorem condKeys_nodup (rs : List TrialRecord) : (condKeys rs).Nodup :=
  (condKeys_perm rs).nodup_iff.mpr (nodup_firstSeen (labels rs))

theorem condKeys_eq_of_mem_iff {rs1 rs2 : List TrialRecord}
    (h : ∀ c, c ∈ condKeys rs1 ↔ c ∈ condKeys rs2) : condKeys rs1 = condKeys rs2 :=
  List.eq_of_perm_of_sorted
    ((List.perm_ext_iff_of_nodup (condKeys_nodup rs1) (condKeys_nodup rs2)).mpr h)
    (condKeys_sorted rs1) (condKeys_sorted rs2)

theorem mem_rowsFor {r : TrialRecord} {rs : List TrialRecord} {c : String} :
    r ∈ rowsFor rs c ↔ r ∈ rs ∧ r.trial_type = some c := by
  simp [rowsFor, List.mem_filter]

theorem mem_labels {x : String} {rs : List TrialRecord} :
    x ∈ labels rs ↔ ∃ r ∈ rs, r.trial_type = some x := by
  rw [labels, List.mem_filterMap]

/-! ### Claim theorems -/

/-- C4: on the tutorial input, `group` returns
`conditions = ["Finger", "Foot", "Lips"]`, `onsets = [[10,100],[40,130],[70]]`
and `durations = [[15,15],[15,15],[15]]`. -/
theorem c4_tutorial_example :
    group tutorialRecords =
      ⟨["Finger", "Foot", "Lips"], [[10, 100], [40, 130], [70]],
        [[15, 15], [15, 15], [15]]⟩ := by
  decide

/-- C6: the empty input produces a ConditionModel whose `conditions`,
`onsets` and `durations` are all empty. -/
theorem c6_empty_input : group [] = ⟨[], [], []⟩ := by
  decide

/-- C2: `conditions`, `onsets` and `durations` have equal length, and the
entries of `onsets` and `durations` at index `i` both have length equal to the
number of input records whose `trial_type` equals `conditions[i]`. -/
theorem c2_shape_invariant (rs : List TrialRecord) :
    (group rs).conditions.length = (group rs).onsets.length ∧
    (group rs).conditions.length = (group rs).durations.length ∧
    ∀ i : Nat,
      ((group rs).onsets[i]?).map List.length =
        ((group rs).conditions[i]?).map
          (fun c => rs.countP (fun r => r.trial_type == some c)) ∧
      ((group rs).durations[i]?).map List.length =
        ((group rs).conditions[i]?).map
          (fun c => rs.countP (fun r => r.trial_type == some c)) := by
  refine ⟨by simp [group], by simp [group], fun i => ?_⟩
  constructor <;>
    simp [group, List.getElem?_map, Option.map_map, Function.comp_def, rowsFor,
      List.countP_eq_length_filter, List.length_map]

/-- C3: the onset and duration lists of each condition are the projections of
a single order-preserving subsequence (`List.Sublist`) of the input whose
records all carry that condition, so relative input order is kept within a
condition and `onsets[i][j]` is paired with the duration of the same record. -/
theorem c3_order_and_pairing (rs : List TrialRecord) (i : Nat) (c : String)
    (h : (group rs).conditions[i]? = some c) :
    ∃ sub : List TrialRecord, sub.Sublist rs ∧
      (∀ r ∈ sub, r.trial_type = some c) ∧
      (group rs).onsets[i]? = some (sub.map (fun r => r.onset)) ∧
      (group rs).durations[i]? = some (sub.map (fun r => r.duration)) := by
  refine ⟨rowsFor rs c, List.filter_sublist rs,
    fun r hr => (mem_rowsFor.mp hr).2, ?_, ?_⟩ <;>
  · simp only [group] at h ⊢
    rw [List.getElem?_map, h]
    rfl

/-- C3 witness: the theorem applied to a concrete one-record input. -/
theorem c3_order_and_pairing_witness :
    ∃ sub : List TrialRecord, sub.Sublist [⟨10, 15, some "A", none⟩] ∧
      (∀ r ∈ sub, r.trial_type = some "A") ∧
      (group [⟨10, 15, some "A", none⟩]).onsets[0]? =
        some (sub.map (fun r => r.onset)) ∧
      (group [⟨10, 15, some "A", none⟩]).durations[0]? =
        some (sub.map (fun r => r.duration)) :=
  c3_order_and_pairing [⟨10, 15, some "A", none⟩] 0 "A" (by decide)

/-- C1 counterexample: on input whose rows appear as "Foot" then "Finger",
the emitted `conditions` is `["Finger", "Foot"]`: it is not the
first-appearance order, and `conditions[0]` is not the `trial_type` of the
first input record. -/
theorem c1_counterexample :
    (group swappedRecords).conditions ≠ specFirstSeenConditions swappedRecords ∧
    (group swappedRecords).conditions[0]? = some "Finger" ∧
    (swappedRecords.map (fun r => r.trial_type))[0]? = some (some "Foot") := by
  decide

/-- C1 amended: `conditions` lists the distinct `trial_type` labels of the
input, without duplicates, in ascending lexicographic order (pandas sorts the
group keys), not in order of first appearance. -/
theorem c1_conditions_sorted_distinct (rs : List TrialRecord) :
    (group rs).conditions.Sorted strLe ∧ (group rs).conditions.Nodup ∧
    ∀ c : String, c ∈ (group rs).conditions ↔ ∃ r ∈ rs, r.trial_type = some c :=
  ⟨condKeys_sorted rs, condKeys_nodup rs, fun _ => mem_condKeys⟩

/-- C9: the emitted `conditions` is sorted ascending lexicographically, and it
is unchanged under any permutation of the input rows — the order in which
labels first appear is irrelevant. -/
theorem c9_sorted_independent_of_input_order (rs1 rs2 : List TrialRecord)
    (h : rs1.Perm rs2) :
    (group rs1).conditions.Sorted strLe ∧
    (group rs1).conditions = (group rs2).conditions := by
  refine ⟨condKeys_sorted rs1, condKeys_eq_of_mem_iff fun c => ?_⟩
  rw [mem_condKeys, mem_condKeys]
  constructor
  · rintro ⟨r, hr, ht⟩
    exact ⟨r, h.mem_iff.mp hr, ht⟩
  · rintro ⟨r, hr, ht⟩
    exact ⟨r, h.mem_iff.mpr hr, ht⟩

/-- C9 witness: the theorem applied to a concrete two-record permutation. -/
theorem c9_sorted_independent_of_input_order_witness :
    (group [⟨40, 15, some "Foot", some 1⟩, ⟨10, 15, some "Finger", some 1⟩]).conditions.Sorted strLe ∧
    (group [⟨40, 15, some "Foot", some 1⟩, ⟨10, 15, some "Finger", some 1⟩]).conditions =
      (group [⟨10, 15, some "Finger", some 1⟩, ⟨40, 15, some "Foot", some 1⟩]).conditions :=
  c9_sorted_independent_of_input_order _ _
    (List.Perm.swap (⟨10, 15, some "Finger", some 1⟩ : TrialRecord)
      (⟨40, 15, some "Foot", some 1⟩ : TrialRecord) [])

/-- C8: two-run noninterference in the `weight` column — inputs that agree on
`onset`, `duration` and `trial_type` of every row produce identical
ConditionModels, whatever their `weight` values. -/
theorem c8_weight_noninterference (rs1 rs2 : List TrialRecord)
    (h : rs1.map stripWeight = rs2.map stripWeight) : group rs1 = group rs2 := by
  have hlab : labels rs1 = labels rs2 := by
    have h1 : List.filterMap (fun t => t.2.2) (rs1.map stripWeight) =
        List.filterMap (fun t => t.2.2) (rs2.map stripWeight) := by rw [h]
    simpa [List.filterMap_map, Function.comp_def, labels, stripWeight] using h1
  have hck : condKeys rs1 = condKeys rs2 := by
    unfold condKeys
    rw [hlab]
  have hro : (fun c => (rowsFor rs1 c).map (fun r => r.onset)) =
      (fun c => (rowsFor rs2 c).map (fun r => r.onset)) := by
    funext c
    have h1 : ((rs1.map stripWeight).filter (fun t => t.2.2 == some c)).map (fun t => t.1) =
        ((rs2.map stripWeight).filter (fun t => t.2.2 == some c)).map (fun t => t.1) := by
      rw [h]
    simpa [List.filter_map, List.map_map, Function.comp_def, rowsFor, stripWeight] using h1
  have hrd : (fun c => (rowsFor rs1 c).map (fun r => r.duration)) =
      (fun c => (rowsFor rs2 c).map (fun r => r.duration)) := by
    funext c
    have h1 : ((rs1.map stripWeight).filter (fun t => t.2.2 == some c)).map (fun t => t.2.1) =
        ((rs2.map stripWeight).filter (fun t => t.2.2 == some c)).map (fun t => t.2.1) := by
      rw [h]
    simpa [List.filter_map, List.map_map, Function.comp_def, rowsFor, stripWeight] using h1
  unfold group
  rw [hck, hro, hrd]

/-- C8 witness: the theorem applied to two concrete inputs that differ only in
their `weight` values. -/
theorem c8_weight_noninterference_witness :
    group [⟨10, 15, some "Finger", some 1⟩, ⟨40, 15, some "Foot", none⟩] =
      group [⟨10, 15, some "Finger", some 3⟩, ⟨40, 15, some "Foot", some 7⟩] :=
  c8_weight_noninterference
    [⟨10, 15, some "Finger", some 1⟩, ⟨40, 15, some "Foot", none⟩]
    [⟨10, 15, some "Finger", some 3⟩, ⟨40, 15, some "Foot", some 7⟩] (by decide)

/-- C10: rows whose `trial_type` is missing are silently dropped — the output
is the one produced from just the rows with a present `trial_type` (pandas
groupby drops null keys). -/
theorem c10_missing_trial_type_dropped (rs : List TrialRecord) :
    group rs = group (rs.filter (fun r => r.trial_type.isSome)) := by
  have hlab : labels (rs.filter (fun r => r.trial_type.isSome)) = labels rs := by
    induction rs with
    | nil => rfl
    | cons r rs ih =>
      cases htt : r.trial_type with
      | none => simpa [labels, List.filter_cons, List.filterMap_cons, htt] using ih
      | some c => simpa [labels, List.filter_cons, List.filterMap_cons, htt] using ih
  have hrow : ∀ c, rowsFor (rs.filter (fun r => r.trial_type.isSome)) c = rowsFor rs c := by
    intro c
    rw [rowsFor, rowsFor, List.filter_filter]
    apply List.filter_congr
    intro r _
    cases r.trial_type <;> simp
  have hck : condKeys (rs.filter (fun r => r.trial_type.isSome)) = condKeys rs := by
    unfold condKeys
    rw [hlab]
  have hre : rowsFor (rs.filter (fun r => r.trial_type.isSome)) = rowsFor rs :=
    funext hrow
  unfold group
  rw [hck, hre]

/-- C5 counterexample: on an input whose first row lacks a `trial_type`, the
code does not fail at all — no `MalformedRecordError` exists; `group` is a
total function and returns an ordinary ConditionModel that silently omits the
malformed row. -/
theorem c5_counterexample :
    (malformedRecords.map (fun r => r.trial_type))[0]? = some none ∧
    group malformedRecords = ⟨["Foot"], [[40]], [[15]]⟩ := by
  decide

/-- C5 amended: a record lacking a `trial_type` raises nothing; it is silently
removed, and the remaining records produce the same output they would alone. -/
theorem c5_missing_field_silently_skipped (pre post : List TrialRecord)
    (r : TrialRecord) (h : r.trial_type = none) :
    group (pre ++ r :: post) = group (pre ++ post) := by
  have hlab : labels (pre ++ r :: post) = labels (pre ++ post) := by
    simp [labels, List.filterMap_append, List.filterMap_cons, h]
  have hrow : rowsFor (pre ++ r :: post) = rowsFor (pre ++ post) := by
    funext c
    simp [rowsFor, List.filter_append, List.filter_cons, h]
  have hck : condKeys (pre ++ r :: post) = condKeys (pre ++ post) := by
    unfold condKeys
    rw [hlab]
  unfold group
  rw [hck, hrow]

/-- C5 witness: the amended theorem applied at a concrete input. -/
theorem c5_missing_field_silently_skipped_witness :
    group ([⟨40, 15, some "Foot", some 1⟩] ++
        (⟨10, 15, none, some 1⟩ : TrialRecord) :: [⟨70, 15, some "Lips", some 1⟩]) =
      group ([⟨40, 15, some "Foot", some 1⟩] ++ [⟨70, 15, some "Lips", some 1⟩]) :=
  c5_missing_field_silently_skipped [⟨40, 15, some "Foot", some 1⟩]
    [⟨70, 15, some "Lips", some 1⟩] ⟨10, 15, none, some 1⟩ rfl

/-! ### Flattening a ConditionModel back into records (for C7) -/

theorem rebuild_map_eq_blocks (rs : List TrialRecord) : ∀ cs : List String,
    rebuild cs (cs.map (fun c => (rowsFor rs c).map (fun r => r.onset)))
      (cs.map (fun c => (rowsFor rs c).map (fun r => r.duration))) = blocks rs cs
  | [] => rfl
  | c :: cs => by
    rw [List.map_cons, List.map_cons, rebuild, blocks, rebuild_map_eq_blocks rs cs]
    rw [List.zip_map', List.map_map]
    rfl

theorem flattenModel_group (rs : List TrialRecord) :
    flattenModel (group rs) = blocks rs (condKeys rs) :=
  rebuild_map_eq_blocks rs (condKeys rs)

theorem rowsFor_ne_nil_of_mem_condKeys {c : String} {rs : List TrialRecord}
    (h : c ∈ condKeys rs) : rowsFor rs c ≠ [] := by
  obtain ⟨r, hr, ht⟩ := mem_condKeys.mp h
  intro hnil
  have hmem : r ∈ rowsFor rs c := mem_rowsFor.mpr ⟨hr, ht⟩
  rw [hnil] at hmem
  exact absurd hmem (List.not_mem_nil r)

theorem exists_mem_blocks {rs : List TrialRecord} {c : String} : ∀ cs : List String,
    (∃ r ∈ blocks rs cs, r.trial_type = some c) ↔ c ∈ cs ∧ rowsFor rs c ≠ []
  | [] => by simp [blocks]
  | c' :: cs => by
    rw [blocks]
    constructor
    · rintro ⟨r, hr, ht⟩
      rcases List.mem_append.mp hr with hmem | hmem
      · obtain ⟨r0, hr0, rfl⟩ := List.mem_map.mp hmem
        obtain rfl : c' = c := by simpa using ht
        refine ⟨List.mem_cons_self c' cs, fun hnil => ?_⟩
        rw [hnil] at hr0
        exact absurd hr0 (List.not_mem_nil r0)
      · have hrec := (exists_mem_blocks cs).mp ⟨r, hmem, ht⟩
        exact ⟨List.mem_cons_of_mem c' hrec.1, hrec.2⟩
    · rintro ⟨hc, hne⟩
      rcases List.mem_cons.mp hc with rfl | hc
      · obtain ⟨r0, hr0⟩ := List.exists_mem_of_ne_nil _ hne
        exact ⟨⟨r0.onset, r0.duration, some c, none⟩,
          List.mem_append.mpr (Or.inl (List.mem_map.mpr ⟨r0, hr0, rfl⟩)), rfl⟩
      · obtain ⟨r, hr, ht⟩ := (exists_mem_blocks cs).mpr ⟨hc, hne⟩
        exact ⟨r, List.mem_append.mpr (Or.inr hr), ht⟩

theorem rowsFor_blocks {rs : List TrialRecord} {c : String} : ∀ cs : List String,
    cs.Nodup →
    rowsFor (blocks rs cs) c =
      if c ∈ cs then (rowsFor rs c).map (fun r => ⟨r.onset, r.duration, some c, none⟩)
      else []
  | [], _ => by simp [blocks, rowsFor]
  | c' :: cs, hnd => by
    obtain ⟨hc', hnd'⟩ := List.nodup_cons.mp hnd
    have hfb : List.filter (fun r : TrialRecord => r.trial_type == some c)
        ((rowsFor rs c').map
          (fun r => (⟨r.onset, r.duration, some c', none⟩ : TrialRecord))) =
        if c' = c then
          (rowsFor rs c').map
            (fun r => (⟨r.onset, r.duration, some c', none⟩ : TrialRecord))
        else [] := by
      by_cases hcc : c' = c
      · subst hcc
        rw [if_pos rfl]
        apply List.filter_eq_self.mpr
        intro a ha
        obtain ⟨r, _, rfl⟩ := List.mem_map.mp ha
        simp
      · rw [if_neg hcc]
        apply List.filter_eq_nil_iff.mpr
        intro a ha
        obtain ⟨r, _, rfl⟩ := List.mem_map.mp ha
        simp [hcc]
    have hstep : rowsFor (blocks rs (c' :: cs)) c =
        (List.filter (fun r : TrialRecord => r.trial_type == some c)
          ((rowsFor rs c').map
            (fun r => (⟨r.onset, r.duration, some c', none⟩ : TrialRecord)))) ++
          rowsFor (blocks rs cs) c := by
      rw [blocks, rowsFor, List.filter_append]
      rfl
    rw [hstep, hfb, rowsFor_blocks cs hnd']
    by_cases hcc : c' = c
    · subst hcc
      rw [if_pos rfl, if_neg hc', if_pos (List.mem_cons_self c' cs), List.append_nil]
    · rw [if_neg hcc]
      by_cases hmem : c ∈ cs
      · rw [if_pos hmem, if_pos (List.mem_cons_of_mem c' hmem), List.nil_append]
      · rw [if_neg hmem, if_neg (fun h => (List.mem_cons.mp h).elim (fun e => hcc e.symm) hmem),
          List.nil_append]

/-- C7: flattening the produced ConditionModel back into a record sequence
(per condition in order, one record per aligned onset/duration pair) and
grouping again yields the same ConditionModel. -/
theorem c7_regroup_idempotent (rs : List TrialRecord) :
    group (flattenModel (group rs)) = group rs := by
  rw [flattenModel_group]
  have hck : condKeys (blocks rs (condKeys rs)) = condKeys rs := by
    apply condKeys_eq_of_mem_iff
    intro c
    rw [mem_condKeys, mem_condKeys, exists_mem_blocks (condKeys rs)]
    constructor
    · rintro ⟨hc, _⟩
      exact mem_condKeys.mp hc
    · intro hex
      have hc : c ∈ condKeys rs := mem_condKeys.mpr hex
      exact ⟨hc, rowsFor_ne_nil_of_mem_condKeys hc⟩
  unfold group
  rw [hck]
  congr 1
  · apply List.map_congr_left
    intro c hc
    rw [rowsFor_blocks (condKeys rs) (condKeys_nodup rs), if_pos hc, List.map_map]
    rfl
  · apply List.map_congr_left
    intro c hc
    rw [rowsFor_blocks (condKeys rs) (condKeys_nodup rs), if_pos hc, List.map_map]
    rfl
